import Mathlib

/-!
Shallow embedding of the `rs-nbody` simulator core (files `src/vec3.rs`,
`src/forward_euler.rs`, `src/leapfrog.rs`, and the symplectic-Euler module,
which is absent from the sources and therefore modelled from the design
document, §4.4).

Scalars: the Rust code computes with IEEE-754 `f64`; the embedding reads the
arithmetic exactly, over `ℚ`.  The square root `f64::sqrt` (whose exact values
are not rational) is abstracted as a function `sqrt : ℚ → ℚ` passed explicitly
to every operation that needs a vector norm; every structural statement below
holds for an arbitrary `sqrt`, and concrete evaluations instantiate it at
points where the IEEE square root is exact (e.g. `sqrt 1 = 1`).

The imperative loops of the Rust code are embedded as left folds over the index
range, mutating the body list by `List.set`, so that each loop iteration reads
the *current* list state exactly as the Rust borrow of `self.bodies` does; the
theorems then establish which snapshot of the state each quantity actually
depends on.
-/

/-- 3-component real vector of `vec3.rs` (`Vec3 { e: [f64; 3] }`, with
accessors `x()`, `y()`, `z()` embedded as fields). -/
structure Vec3 where
  x : ℚ
  y : ℚ
  z : ℚ
deriving DecidableEq, Repr

namespace Vec3

/-- `Vec3::ZERO`. -/
def ZERO : Vec3 := ⟨0, 0, 0⟩

/-- `impl Add for Vec3` (componentwise). -/
def add (u v : Vec3) : Vec3 := ⟨u.x + v.x, u.y + v.y, u.z + v.z⟩

theorem add_assoc_def (a b c : Vec3) : add (add a b) c = add a (add b c) := by
  cases a; cases b; cases c
  simp only [add, Vec3.mk.injEq]
  refine ⟨by ring, by ring, by ring⟩

theorem add_comm_def (a b : Vec3) : add a b = add b a := by
  cases a; cases b
  simp only [add, Vec3.mk.injEq]
  refine ⟨by ring, by ring, by ring⟩

theorem zero_add_def (a : Vec3) : add ZERO a = a := by
  cases a
  simp only [add, ZERO, Vec3.mk.injEq]
  refine ⟨by ring, by ring, by ring⟩

theorem add_zero_def (a : Vec3) : add a ZERO = a := by
  cases a
  simp only [add, ZERO, Vec3.mk.injEq]
  refine ⟨by ring, by ring, by ring⟩

/-- The additive structure of `Vec3` (the source's `Add`/`Sum` impls satisfy
the commutative-monoid laws componentwise). -/
instance : AddCommMonoid Vec3 where
  add := add
  zero := ZERO
  add_assoc := add_assoc_def
  zero_add := zero_add_def
  add_zero := add_zero_def
  add_comm := add_comm_def
  nsmul := fun n v => Nat.rec ZERO (fun _ acc => add acc v) n
  nsmul_zero := fun _ => rfl
  nsmul_succ := fun _ _ => rfl

/-- `impl Sub for Vec3` (componentwise). -/
instance : Sub Vec3 := ⟨fun u v => ⟨u.x - v.x, u.y - v.y, u.z - v.z⟩⟩

/-- `impl Neg for Vec3` (componentwise). -/
instance : Neg Vec3 := ⟨fun v => ⟨-v.x, -v.y, -v.z⟩⟩

/-- `impl Mul<f64> for Vec3`: `v * s` scales every component. -/
instance : HMul Vec3 ℚ Vec3 := ⟨fun v s => ⟨v.x * s, v.y * s, v.z * s⟩⟩

/-- `impl Mul<Vec3> for f64`: the source defines `s * v` as `v * s`. -/
instance : HMul ℚ Vec3 Vec3 := ⟨fun s v => v * s⟩

/-- `impl Div<f64> for Vec3`: `v / s` divides every component. -/
instance : HDiv Vec3 ℚ Vec3 := ⟨fun v s => ⟨v.x / s, v.y / s, v.z / s⟩⟩

/-- `Vec3::dot`. -/
def dot (u v : Vec3) : ℚ := u.x * v.x + u.y * v.y + u.z * v.z

/-- `Vec3::length_squared`. -/
def length_squared (v : Vec3) : ℚ := dot v v

/-- `Vec3::length`, with `f64::sqrt` abstracted as `sqrt`. -/
def length (sqrt : ℚ → ℚ) (v : Vec3) : ℚ := sqrt v.length_squared

/-- `impl Sum for Vec3`: a running `+=` over the iterator, starting at
`ZERO`, i.e. a left fold. -/
def vsum (l : List Vec3) : Vec3 := l.foldl (· + ·) ZERO

theorem add_def (u v : Vec3) : u + v = ⟨u.x + v.x, u.y + v.y, u.z + v.z⟩ := rfl

theorem sub_def (u v : Vec3) : u - v = ⟨u.x - v.x, u.y - v.y, u.z - v.z⟩ := rfl

theorem neg_def (v : Vec3) : -v = ⟨-v.x, -v.y, -v.z⟩ := rfl

theorem smul_def (v : Vec3) (s : ℚ) : v * s = ⟨v.x * s, v.y * s, v.z * s⟩ := rfl

theorem smul_left_def (s : ℚ) (v : Vec3) : s * v = v * s := rfl

theorem zero_def : (0 : Vec3) = ZERO := rfl

theorem sub_zero_eq (v : Vec3) : v - ZERO = v := by
  cases v
  simp [sub_def, ZERO]

theorem length_squared_neg (v : Vec3) : length_squared (-v) = length_squared v := by
  cases v
  simp only [length_squared, dot, neg_def]
  ring

theorem vsum_nil : vsum [] = ZERO := rfl

theorem foldl_add_shift (l : List Vec3) (a : Vec3) : l.foldl (· + ·) a = a + vsum l := by
  induction l generalizing a with
  | nil =>
    show a = a + ZERO
    rw [← zero_def, add_zero]
  | cons hd tl ih =>
    show tl.foldl (· + ·) (a + hd) = a + vsum (hd :: tl)
    rw [ih (a + hd)]
    show a + hd + vsum tl = a + tl.foldl (· + ·) (ZERO + hd)
    rw [ih (ZERO + hd), ← zero_def, zero_add, add_assoc]

theorem vsum_cons (v : Vec3) (l : List Vec3) : vsum (v :: l) = v + vsum l := by
  show l.foldl (· + ·) (ZERO + v) = v + vsum l
  rw [foldl_add_shift, ← zero_def, zero_add]

theorem vsum_append (l₁ l₂ : List Vec3) : vsum (l₁ ++ l₂) = vsum l₁ + vsum l₂ := by
  induction l₁ with
  | nil =>
    rw [List.nil_append, vsum_nil, ← zero_def, zero_add]
  | cons hd tl ih =>
    rw [List.cons_append, vsum_cons, vsum_cons, ih, add_assoc]

end Vec3

/-- `pub type Point3 = Vec3`. -/
abbrev Point3 := Vec3

/-- Shared shape of the per-index mutation loops
`for i in 0..self.bodies.len() { ...; self.bodies[i].<field> += <kick of the
acceleration sum>; }` found in `forward_euler.rs` (staging pass),
`leapfrog.rs` (`tick`'s kick pass and `half_tick_velocity`) and the modelled
symplectic-Euler velocity pass.  `accel cur i` reads the *current* list state,
exactly as `self.bodies[i].acceleration(b)` reads the borrowed `self.bodies`
mid-loop. -/
def kickStep {β : Type} (db : β) (accel : List β → ℕ → Vec3) (kick : Vec3 → β → β)
    (cur : List β) (i : ℕ) : List β :=
  cur.set i (kick (accel cur i) (cur.getD i db))

/-- One whole `for i in 0..self.bodies.len()` loop of `kickStep` iterations. -/
def kickPass {β : Type} (db : β) (accel : List β → ℕ → Vec3) (kick : Vec3 → β → β)
    (bs : List β) : List β :=
  (List.range bs.length).foldl (kickStep db accel kick) bs

namespace ForwardEuler

/-- `forward_euler.rs` `Body`: position, velocity, pre-scaled mass `G·m`, and
the staged `next_velocity` double buffer (a private field, equal to `velocity`
on construction). -/
structure Body where
  position : Point3
  velocity : Vec3
  mass : ℚ
  next_velocity : Vec3
deriving DecidableEq, Repr

/-- `forward_euler.rs` `Body::acceleration`:
`r = from.position - self.position; (from.mass / r.length().powf(3.0)) * r`. -/
def Body.acceleration (sqrt : ℚ → ℚ) (self from_ : Body) : Vec3 :=
  let r : Vec3 := from_.position - self.position
  (from_.mass / (Vec3.length sqrt r) ^ 3) * r

/-- `forward_euler.rs` `Body::new`: stages `next_velocity = velocity`. -/
def Body.new (position : Point3) (velocity : Vec3) (mass : ℚ) : Body :=
  { position := position, velocity := velocity, mass := mass, next_velocity := velocity }

/-- Placeholder body returned by out-of-range `getD` reads; every in-range
read in the embedding is below the list length, so it never leaks into a
result. -/
def dbody : Body := ⟨Vec3.ZERO, Vec3.ZERO, 0, Vec3.ZERO⟩

/-- `forward_euler.rs` `World`: bodies plus elapsed time. -/
structure World where
  bodies : List Body
  time : ℚ
deriving DecidableEq, Repr

/-- `forward_euler.rs` `World::new`: time starts at `0.`. -/
def World.new (bodies : List Body) : World := { bodies := bodies, time := 0 }

/-- The all-pairs acceleration sum of `forward_euler.rs:53-59`:
`self.bodies.iter().enumerate().filter_map(|(j, b)| (i != j).then(|| self.bodies[i].acceleration(b))).sum()`. -/
def accelSum (sqrt : ℚ → ℚ) (bodies : List Body) (i : ℕ) : Vec3 :=
  Vec3.vsum ((List.range bodies.length).filterMap (fun j =>
    if i ≠ j then some (Body.acceleration sqrt (bodies.getD i dbody) (bodies.getD j dbody))
    else none))

/-- `forward_euler.rs` `World::tick`: first the staging loop
`self.bodies[i].next_velocity += acceleration * tick_duration` over all `i`,
then the per-body commit loop `position += velocity * dt; velocity =
next_velocity`, then `time += tick_duration`. -/
def World.tick (sqrt : ℚ → ℚ) (tick_duration : ℚ) (w : World) : World :=
  let staged := kickPass dbody (accelSum sqrt)
    (fun a b => { b with next_velocity := b.next_velocity + a * tick_duration }) w.bodies
  { bodies := staged.map (fun b =>
      { b with position := b.position + b.velocity * tick_duration,
               velocity := b.next_velocity }),
    time := w.time + tick_duration }

/-- `forward_euler.rs` `World::into_rest_frame`: reads body `i` through
`.get(i)`, falling back to zero vectors when out of range, then subtracts from
every body's position, velocity and staged `next_velocity`. -/
def World.into_rest_frame (i : ℕ) (w : World) : World :=
  let rf := ((w.bodies[i]?).map (fun r => (r.position, r.velocity))).getD (Vec3.ZERO, Vec3.ZERO)
  { bodies := w.bodies.map (fun b =>
      { b with position := b.position - rf.1,
               velocity := b.velocity - rf.2,
               next_velocity := b.next_velocity - rf.2 }),
    time := w.time }

/-- The fields of a body that the gravitational acceleration reads: position
and mass. -/
def pm (b : Body) : Vec3 × ℚ := (b.position, b.mass)

end ForwardEuler

namespace Leapfrog

/-- `leapfrog.rs` `Body`: position, velocity, pre-scaled mass `G·m`; no
staging buffer. -/
structure Body where
  position : Point3
  velocity : Vec3
  mass : ℚ
deriving DecidableEq, Repr

/-- `leapfrog.rs` `Body::acceleration`:
`r = from.position - self.position; (from.mass / r.length().powf(3.0)) * r`. -/
def Body.acceleration (sqrt : ℚ → ℚ) (self from_ : Body) : Vec3 :=
  let r : Vec3 := from_.position - self.position
  (from_.mass / (Vec3.length sqrt r) ^ 3) * r

/-- `leapfrog.rs` `Body::new`. -/
def Body.new (position : Point3) (velocity : Vec3) (mass : ℚ) : Body :=
  { position := position, velocity := velocity, mass := mass }

/-- Placeholder body for out-of-range `getD` reads (never observed in range). -/
def dbody : Body := ⟨Vec3.ZERO, Vec3.ZERO, 0⟩

/-- `leapfrog.rs` `World`. -/
structure World where
  bodies : List Body
  time : ℚ
deriving DecidableEq, Repr

/-- `leapfrog.rs` `World::new`: time starts at `0.`. -/
def World.new (bodies : List Body) : World := { bodies := bodies, time := 0 }

/-- The all-pairs acceleration sum of `leapfrog.rs:59-64` (and
`leapfrog.rs:73-78`), identical in shape to the forward-Euler one. -/
def accelSum (sqrt : ℚ → ℚ) (bodies : List Body) (i : ℕ) : Vec3 :=
  Vec3.vsum ((List.range bodies.length).filterMap (fun j =>
    if i ≠ j then some (Body.acceleration sqrt (bodies.getD i dbody) (bodies.getD j dbody))
    else none))

/-- `leapfrog.rs` `World::tick`: first the per-body drift loop
`body.position += body.velocity * tick_duration`, then `time += tick_duration`,
then the kick loop `self.bodies[i].velocity += tick_duration * acceleration`
whose acceleration sum reads the already-drifted positions. -/
def World.tick (sqrt : ℚ → ℚ) (tick_duration : ℚ) (w : World) : World :=
  let drifted := w.bodies.map (fun b =>
    { b with position := b.position + b.velocity * tick_duration })
  { bodies := kickPass dbody (accelSum sqrt)
      (fun a b => { b with velocity := b.velocity + tick_duration * a }) drifted,
    time := w.time + tick_duration }

/-- `leapfrog.rs` `World::half_tick_velocity`: the kick loop
`self.bodies[i].velocity += acceleration * tick_duration / 2.`; positions and
time are not touched. -/
def World.half_tick_velocity (sqrt : ℚ → ℚ) (tick_duration : ℚ) (w : World) : World :=
  { bodies := kickPass dbody (accelSum sqrt)
      (fun a b => { b with velocity := b.velocity + a * tick_duration / (2 : ℚ) }) w.bodies,
    time := w.time }

/-- `leapfrog.rs` `World::into_rest_frame`: reads body `i` through `.get(i)`,
falling back to zero vectors when out of range, then subtracts from every
body's position and velocity. -/
def World.into_rest_frame (i : ℕ) (w : World) : World :=
  let rf := ((w.bodies[i]?).map (fun r => (r.position, r.velocity))).getD (Vec3.ZERO, Vec3.ZERO)
  { bodies := w.bodies.map (fun b =>
      { b with position := b.position - rf.1,
               velocity := b.velocity - rf.2 }),
    time := w.time }

/-- The fields of a body that the gravitational acceleration reads. -/
def pm (b : Body) : Vec3 × ℚ := (b.position, b.mass)

end Leapfrog

namespace SymplecticEuler

/-- Modelled from the spec: the symplectic-Euler module (`symplectic_euler.rs`)
is referenced by `main.rs` but its source file is missing from the repository
snapshot; spec §4.4 gives its contract.  Body shape: "Same entity shape as
forward Euler minus the staging buffer". -/
structure Body where
  position : Point3
  velocity : Vec3
  mass : ℚ
deriving DecidableEq, Repr

/-- Modelled from the spec: the pairwise acceleration contribution, "the same
pairwise acceleration sum" as the other schemes (spec §4.2, §4.4). -/
def Body.acceleration (sqrt : ℚ → ℚ) (self from_ : Body) : Vec3 :=
  let r : Vec3 := from_.position - self.position
  (from_.mass / (Vec3.length sqrt r) ^ 3) * r

/-- Modelled from the spec: construction from an input row (spec §6). -/
def Body.new (position : Point3) (velocity : Vec3) (mass : ℚ) : Body :=
  { position := position, velocity := velocity, mass := mass }

/-- Placeholder body for out-of-range `getD` reads (never observed in range). -/
def dbody : Body := ⟨Vec3.ZERO, Vec3.ZERO, 0⟩

/-- Modelled from the spec: World shape shared by all three schemes (spec §3). -/
structure World where
  bodies : List Body
  time : ℚ
deriving DecidableEq, Repr

/-- Modelled from the spec: "`time` ... starts at 0" (spec §3). -/
def World.new (bodies : List Body) : World := { bodies := bodies, time := 0 }

/-- Modelled from the spec: the O(N²) all-pairs sum over `j ≠ i` (spec §4.2). -/
def accelSum (sqrt : ℚ → ℚ) (bodies : List Body) (i : ℕ) : Vec3 :=
  Vec3.vsum ((List.range bodies.length).filterMap (fun j =>
    if i ≠ j then some (Body.acceleration sqrt (bodies.getD i dbody) (bodies.getD j dbody))
    else none))

/-- Modelled from the spec (§4.4): per tick, "compute the same pairwise
acceleration sum from current positions for every body, then immediately
update each body's velocity in place (`velocity += dt · acceleration`) ...
before moving to the next body, and finally update position using the
just-updated velocity (`position += dt · velocity`)"; positions "are not
touched until after velocities".  Time advances by the tick duration per the
§3 World invariant. -/
def World.tick (sqrt : ℚ → ℚ) (tick_duration : ℚ) (w : World) : World :=
  let kicked := kickPass dbody (accelSum sqrt)
    (fun a b => { b with velocity := b.velocity + a * tick_duration }) w.bodies
  { bodies := kicked.map (fun b =>
      { b with position := b.position + b.velocity * tick_duration }),
    time := w.time + tick_duration }

/-- Modelled from the spec (§4.6): the rest-frame transform shared by all
schemes — subtract body `i`'s position/velocity from every body; out-of-bounds
index is a no-op. -/
def World.into_rest_frame (i : ℕ) (w : World) : World :=
  let rf := ((w.bodies[i]?).map (fun r => (r.position, r.velocity))).getD (Vec3.ZERO, Vec3.ZERO)
  { bodies := w.bodies.map (fun b =>
      { b with position := b.position - rf.1,
               velocity := b.velocity - rf.2 }),
    time := w.time }

/-- The fields of a body that the gravitational acceleration reads. -/
def pm (b : Body) : Vec3 × ℚ := (b.position, b.mass)

end SymplecticEuler

/-! ### Generic list lemmas for the mutation loops -/

theorem list_map_getD {β γ : Type} (f : β → γ) (db : β) (bs : List β) (k : ℕ) :
    (bs.map f).getD k (f db) = f (bs.getD k db) := by
  rw [List.getD_eq_getElem?_getD, List.getD_eq_getElem?_getD, List.getElem?_map]
  cases bs[k]? <;> rfl

theorem list_getD_map_lt {β γ : Type} (f : β → γ) (db : β) (dc : γ) (bs : List β) (i : ℕ)
    (h : i < bs.length) : (bs.map f).getD i dc = f (bs.getD i db) := by
  rw [List.getD_eq_getElem?_getD, List.getElem?_map, List.getElem?_eq_getElem h,
    List.getD_eq_getElem?_getD, List.getElem?_eq_getElem h]
  rfl

theorem list_getD_pm {β γ : Type} (pm : β → γ) (db : β) {bs bs' : List β}
    (h : bs.map pm = bs'.map pm) (k : ℕ) : pm (bs.getD k db) = pm (bs'.getD k db) := by
  rw [← list_map_getD pm db bs k, h, list_map_getD]

theorem list_getD_set_ne {β : Type} (bs : List β) {n i : ℕ} (v db : β) (h : n ≠ i) :
    (bs.set n v).getD i db = bs.getD i db := by
  rw [List.getD_eq_getElem?_getD, List.getD_eq_getElem?_getD, List.getElem?_set_ne h]

theorem list_getD_set_eq {β : Type} (bs : List β) {n : ℕ} (v db : β) (h : n < bs.length) :
    (bs.set n v).getD n db = v := by
  rw [List.getD_eq_getElem?_getD, List.getElem?_set_eq_of_lt v h]
  rfl

theorem list_set_getD_self {β : Type} :
    ∀ (bs : List β) (n : ℕ) (db : β), n < bs.length → bs.set n (bs.getD n db) = bs
  | [], n, _, h => absurd h (by simp)
  | _ :: _, 0, _, _ => rfl
  | b :: bs, n + 1, db, h => by
    show b :: bs.set n ((b :: bs).getD (n + 1) db) = b :: bs
    have hgd : (b :: bs).getD (n + 1) db = bs.getD n db := rfl
    rw [hgd, list_set_getD_self bs n db (by simpa using h)]

/-- The full characterization of a prefix of the kick loop: after the first
`n` iterations, the length and the acceleration-relevant projection `pm` of
every body are unchanged, indices `≥ n` are untouched, and every index
`i < n` holds `kick` of the acceleration sum *of the original list* — the
loop never observes another body's updated state, because `kick` does not
move the fields `accel` reads. -/
theorem kickPass_fold_spec {β γ : Type} (pm : β → γ) (db : β)
    (accel : List β → ℕ → Vec3) (kick : Vec3 → β → β)
    (hkick : ∀ a b, pm (kick a b) = pm b)
    (haccel : ∀ bs1 bs2, bs1.map pm = bs2.map pm → ∀ i, accel bs1 i = accel bs2 i)
    (bs : List β) :
    ∀ n, n ≤ bs.length →
      ((List.range n).foldl (kickStep db accel kick) bs).length = bs.length ∧
      ((List.range n).foldl (kickStep db accel kick) bs).map pm = bs.map pm ∧
      (∀ i, n ≤ i →
        ((List.range n).foldl (kickStep db accel kick) bs).getD i db = bs.getD i db) ∧
      (∀ i, i < n →
        ((List.range n).foldl (kickStep db accel kick) bs).getD i db
          = kick (accel bs i) (bs.getD i db)) := by
  intro n
  induction n with
  | zero =>
    intro _
    refine ⟨rfl, rfl, fun i _ => rfl, fun i hi => absurd hi (Nat.not_lt_zero i)⟩
  | succ n ih =>
    intro hn
    have hn1 : n ≤ bs.length := Nat.le_of_succ_le hn
    have hnlt : n < bs.length := hn
    obtain ⟨hlen, hmap, huntouched, hdone⟩ := ih hn1
    rw [List.range_succ, List.foldl_append, List.foldl_cons, List.foldl_nil]
    have haccn : accel ((List.range n).foldl (kickStep db accel kick) bs) n = accel bs n :=
      haccel _ _ hmap n
    have hgetn : ((List.range n).foldl (kickStep db accel kick) bs).getD n db = bs.getD n db :=
      huntouched n (Nat.le_refl n)
    have hstep : kickStep db accel kick ((List.range n).foldl (kickStep db accel kick) bs) n
        = ((List.range n).foldl (kickStep db accel kick) bs).set n
            (kick (accel bs n) (bs.getD n db)) := by
      rw [kickStep, haccn, hgetn]
    rw [hstep]
    refine ⟨?_, ?_, ?_, ?_⟩
    · rw [List.length_set, hlen]
    · rw [List.map_set, hmap, hkick]
      rw [← list_map_getD pm db bs n]
      exact list_set_getD_self (bs.map pm) n (pm db) (by rw [List.length_map]; exact hnlt)
    · intro i hi
      have hne : n ≠ i := Nat.ne_of_lt hi
      rw [list_getD_set_ne _ _ _ hne, huntouched i (Nat.le_of_succ_le hi)]
    · intro i hi
      rcases Nat.lt_succ_iff_lt_or_eq.mp hi with hilt | hieq
      · have hne : n ≠ i := (Nat.ne_of_lt hilt).symm
        rw [list_getD_set_ne _ _ _ hne, hdone i hilt]
      · subst hieq
        exact list_getD_set_eq _ _ _ (by rw [hlen]; exact hnlt)

theorem kickPass_length {β γ : Type} (pm : β → γ) (db : β)
    (accel : List β → ℕ → Vec3) (kick : Vec3 → β → β)
    (hkick : ∀ a b, pm (kick a b) = pm b)
    (haccel : ∀ bs1 bs2, bs1.map pm = bs2.map pm → ∀ i, accel bs1 i = accel bs2 i)
    (bs : List β) : (kickPass db accel kick bs).length = bs.length :=
  (kickPass_fold_spec pm db accel kick hkick haccel bs bs.length (Nat.le_refl _)).1

theorem kickPass_getD {β γ : Type} (pm : β → γ) (db : β)
    (accel : List β → ℕ → Vec3) (kick : Vec3 → β → β)
    (hkick : ∀ a b, pm (kick a b) = pm b)
    (haccel : ∀ bs1 bs2, bs1.map pm = bs2.map pm → ∀ i, accel bs1 i = accel bs2 i)
    (bs : List β) (i : ℕ) (h : i < bs.length) :
    (kickPass db accel kick bs).getD i db = kick (accel bs i) (bs.getD i db) :=
  (kickPass_fold_spec pm db accel kick hkick haccel bs bs.length (Nat.le_refl _)).2.2.2 i h

/-! ### The acceleration sums read only positions and masses -/

theorem fe_pm_fields {a b : ForwardEuler.Body} (h : ForwardEuler.pm a = ForwardEuler.pm b) :
    a.position = b.position ∧ a.mass = b.mass := by
  have h1 := congrArg Prod.fst h
  have h2 := congrArg Prod.snd h
  exact ⟨h1, h2⟩

theorem fe_acceleration_congr (sqrt : ℚ → ℚ) {a a' b b' : ForwardEuler.Body}
    (ha : ForwardEuler.pm a = ForwardEuler.pm a') (hb : ForwardEuler.pm b = ForwardEuler.pm b') :
    ForwardEuler.Body.acceleration sqrt a b = ForwardEuler.Body.acceleration sqrt a' b' := by
  obtain ⟨hap, _⟩ := fe_pm_fields ha
  obtain ⟨hbp, hbm⟩ := fe_pm_fields hb
  rw [ForwardEuler.Body.acceleration, ForwardEuler.Body.acceleration, hap, hbp, hbm]

theorem fe_accelSum_congr (sqrt : ℚ → ℚ) :
    ∀ bs bs' : List ForwardEuler.Body, bs.map ForwardEuler.pm = bs'.map ForwardEuler.pm →
    ∀ i, ForwardEuler.accelSum sqrt bs i = ForwardEuler.accelSum sqrt bs' i := by
  intro bs bs' h i
  have hlen : bs.length = bs'.length := by
    have := congrArg List.length h
    simpa using this
  rw [ForwardEuler.accelSum, ForwardEuler.accelSum, hlen]
  congr 1
  apply List.filterMap_congr
  intro j _
  by_cases hij : i = j
  · simp [hij]
  · simp only [if_pos (Ne.intro hij)]
    rw [fe_acceleration_congr sqrt (list_getD_pm ForwardEuler.pm ForwardEuler.dbody h i)
      (list_getD_pm ForwardEuler.pm ForwardEuler.dbody h j)]

theorem lf_pm_fields {a b : Leapfrog.Body} (h : Leapfrog.pm a = Leapfrog.pm b) :
    a.position = b.position ∧ a.mass = b.mass := by
  have h1 := congrArg Prod.fst h
  have h2 := congrArg Prod.snd h
  exact ⟨h1, h2⟩

theorem lf_acceleration_congr (sqrt : ℚ → ℚ) {a a' b b' : Leapfrog.Body}
    (ha : Leapfrog.pm a = Leapfrog.pm a') (hb : Leapfrog.pm b = Leapfrog.pm b') :
    Leapfrog.Body.acceleration sqrt a b = Leapfrog.Body.acceleration sqrt a' b' := by
  obtain ⟨hap, _⟩ := lf_pm_fields ha
  obtain ⟨hbp, hbm⟩ := lf_pm_fields hb
  rw [Leapfrog.Body.acceleration, Leapfrog.Body.acceleration, hap, hbp, hbm]

theorem lf_accelSum_congr (sqrt : ℚ → ℚ) :
    ∀ bs bs' : List Leapfrog.Body, bs.map Leapfrog.pm = bs'.map Leapfrog.pm →
    ∀ i, Leapfrog.accelSum sqrt bs i = Leapfrog.accelSum sqrt bs' i := by
  intro bs bs' h i
  have hlen : bs.length = bs'.length := by
    have := congrArg List.length h
    simpa using this
  rw [Leapfrog.accelSum, Leapfrog.accelSum, hlen]
  congr 1
  apply List.filterMap_congr
  intro j _
  by_cases hij : i = j
  · simp [hij]
  · simp only [if_pos (Ne.intro hij)]
    rw [lf_acceleration_congr sqrt (list_getD_pm Leapfrog.pm Leapfrog.dbody h i)
      (list_getD_pm Leapfrog.pm Leapfrog.dbody h j)]

theorem se_pm_fields {a b : SymplecticEuler.Body} (h : SymplecticEuler.pm a = SymplecticEuler.pm b) :
    a.position = b.position ∧ a.mass = b.mass := by
  have h1 := congrArg Prod.fst h
  have h2 := congrArg Prod.snd h
  exact ⟨h1, h2⟩

theorem se_acceleration_congr (sqrt : ℚ → ℚ) {a a' b b' : SymplecticEuler.Body}
    (ha : SymplecticEuler.pm a = SymplecticEuler.pm a')
    (hb : SymplecticEuler.pm b = SymplecticEuler.pm b') :
    SymplecticEuler.Body.acceleration sqrt a b = SymplecticEuler.Body.acceleration sqrt a' b' := by
  obtain ⟨hap, _⟩ := se_pm_fields ha
  obtain ⟨hbp, hbm⟩ := se_pm_fields hb
  rw [SymplecticEuler.Body.acceleration, SymplecticEuler.Body.acceleration, hap, hbp, hbm]

theorem se_accelSum_congr (sqrt : ℚ → ℚ) :
    ∀ bs bs' : List SymplecticEuler.Body,
    bs.map SymplecticEuler.pm = bs'.map SymplecticEuler.pm →
    ∀ i, SymplecticEuler.accelSum sqrt bs i = SymplecticEuler.accelSum sqrt bs' i := by
  intro bs bs' h i
  have hlen : bs.length = bs'.length := by
    have := congrArg List.length h
    simpa using this
  rw [SymplecticEuler.accelSum, SymplecticEuler.accelSum, hlen]
  congr 1
  apply List.filterMap_congr
  intro j _
  by_cases hij : i = j
  · simp [hij]
  · simp only [if_pos (Ne.intro hij)]
    rw [se_acceleration_congr sqrt (list_getD_pm SymplecticEuler.pm SymplecticEuler.dbody h i)
      (list_getD_pm SymplecticEuler.pm SymplecticEuler.dbody h j)]

/-! ### Characterization of each kick loop -/

theorem fe_stage_length (sqrt : ℚ → ℚ) (dt : ℚ) (bs : List ForwardEuler.Body) :
    (kickPass ForwardEuler.dbody (ForwardEuler.accelSum sqrt)
      (fun a b => { b with next_velocity := b.next_velocity + a * dt }) bs).length
    = bs.length :=
  kickPass_length ForwardEuler.pm ForwardEuler.dbody (ForwardEuler.accelSum sqrt)
    (fun a b => { b with next_velocity := b.next_velocity + a * dt })
    (fun _ _ => rfl) (fe_accelSum_congr sqrt) bs

theorem fe_stage_getD (sqrt : ℚ → ℚ) (dt : ℚ) (bs : List ForwardEuler.Body) (i : ℕ)
    (h : i < bs.length) :
    (kickPass ForwardEuler.dbody (ForwardEuler.accelSum sqrt)
      (fun a b => { b with next_velocity := b.next_velocity + a * dt }) bs).getD i
        ForwardEuler.dbody
    = { bs.getD i ForwardEuler.dbody with
        next_velocity := (bs.getD i ForwardEuler.dbody).next_velocity
          + ForwardEuler.accelSum sqrt bs i * dt } :=
  kickPass_getD ForwardEuler.pm ForwardEuler.dbody (ForwardEuler.accelSum sqrt)
    (fun a b => { b with next_velocity := b.next_velocity + a * dt })
    (fun _ _ => rfl) (fe_accelSum_congr sqrt) bs i h

theorem lf_kick_length (sqrt : ℚ → ℚ) (dt : ℚ) (bs : List Leapfrog.Body) :
    (kickPass Leapfrog.dbody (Leapfrog.accelSum sqrt)
      (fun a b => { b with velocity := b.velocity + dt * a }) bs).length = bs.length :=
  kickPass_length Leapfrog.pm Leapfrog.dbody (Leapfrog.accelSum sqrt)
    (fun a b => { b with velocity := b.velocity + dt * a })
    (fun _ _ => rfl) (lf_accelSum_congr sqrt) bs

theorem lf_kick_getD (sqrt : ℚ → ℚ) (dt : ℚ) (bs : List Leapfrog.Body) (i : ℕ)
    (h : i < bs.length) :
    (kickPass Leapfrog.dbody (Leapfrog.accelSum sqrt)
      (fun a b => { b with velocity := b.velocity + dt * a }) bs).getD i Leapfrog.dbody
    = { bs.getD i Leapfrog.dbody with
        velocity := (bs.getD i Leapfrog.dbody).velocity + dt * Leapfrog.accelSum sqrt bs i } :=
  kickPass_getD Leapfrog.pm Leapfrog.dbody (Leapfrog.accelSum sqrt)
    (fun a b => { b with velocity := b.velocity + dt * a })
    (fun _ _ => rfl) (lf_accelSum_congr sqrt) bs i h

theorem lf_halfkick_length (sqrt : ℚ → ℚ) (dt : ℚ) (bs : List Leapfrog.Body) :
    (kickPass Leapfrog.dbody (Leapfrog.accelSum sqrt)
      (fun a b => { b with velocity := b.velocity + a * dt / (2 : ℚ) }) bs).length = bs.length :=
  kickPass_length Leapfrog.pm Leapfrog.dbody (Leapfrog.accelSum sqrt)
    (fun a b => { b with velocity := b.velocity + a * dt / (2 : ℚ) })
    (fun _ _ => rfl) (lf_accelSum_congr sqrt) bs

theorem lf_halfkick_getD (sqrt : ℚ → ℚ) (dt : ℚ) (bs : List Leapfrog.Body) (i : ℕ)
    (h : i < bs.length) :
    (kickPass Leapfrog.dbody (Leapfrog.accelSum sqrt)
      (fun a b => { b with velocity := b.velocity + a * dt / (2 : ℚ) }) bs).getD i Leapfrog.dbody
    = { bs.getD i Leapfrog.dbody with
        velocity := (bs.getD i Leapfrog.dbody).velocity
          + Leapfrog.accelSum sqrt bs i * dt / (2 : ℚ) } :=
  kickPass_getD Leapfrog.pm Leapfrog.dbody (Leapfrog.accelSum sqrt)
    (fun a b => { b with velocity := b.velocity + a * dt / (2 : ℚ) })
    (fun _ _ => rfl) (lf_accelSum_congr sqrt) bs i h

theorem se_kick_length (sqrt : ℚ → ℚ) (dt : ℚ) (bs : List SymplecticEuler.Body) :
    (kickPass SymplecticEuler.dbody (SymplecticEuler.accelSum sqrt)
      (fun a b => { b with velocity := b.velocity + a * dt }) bs).length = bs.length :=
  kickPass_length SymplecticEuler.pm SymplecticEuler.dbody (SymplecticEuler.accelSum sqrt)
    (fun a b => { b with velocity := b.velocity + a * dt })
    (fun _ _ => rfl) (se_accelSum_congr sqrt) bs

theorem se_kick_getD (sqrt : ℚ → ℚ) (dt : ℚ) (bs : List SymplecticEuler.Body) (i : ℕ)
    (h : i < bs.length) :
    (kickPass SymplecticEuler.dbody (SymplecticEuler.accelSum sqrt)
      (fun a b => { b with velocity := b.velocity + a * dt }) bs).getD i SymplecticEuler.dbody
    = { bs.getD i SymplecticEuler.dbody with
        velocity := (bs.getD i SymplecticEuler.dbody).velocity
          + SymplecticEuler.accelSum sqrt bs i * dt } :=
  kickPass_getD SymplecticEuler.pm SymplecticEuler.dbody (SymplecticEuler.accelSum sqrt)
    (fun a b => { b with velocity := b.velocity + a * dt })
    (fun _ _ => rfl) (se_accelSum_congr sqrt) bs i h

/-! ### Claims -/

/-- Claim C1: one forward-Euler `tick(dt)` stages, for every body `i`,
`next_velocity(i) = next_velocity(i) + dt · acceleration(i)` with the
acceleration sum taken over the pre-tick positions of all bodies, touching no
position or velocity during staging; only then does every body get
`position + dt · (pre-tick) velocity` and `velocity = next_velocity`, so no
body's force computation observes another body's post-step state.  Stated as
the net effect of `tick`: every output body is determined by its own pre-tick
fields and the acceleration sum `accelSum` of the *pre-tick* body list. -/
theorem claim_C1_forward_euler_tick (sqrt : ℚ → ℚ) (dt : ℚ) (w : ForwardEuler.World) :
    (w.tick sqrt dt).time = w.time + dt ∧
    (w.tick sqrt dt).bodies.length = w.bodies.length ∧
    ∀ i, i < w.bodies.length →
      (w.tick sqrt dt).bodies.getD i ForwardEuler.dbody =
        { position := (w.bodies.getD i ForwardEuler.dbody).position
            + (w.bodies.getD i ForwardEuler.dbody).velocity * dt,
          velocity := (w.bodies.getD i ForwardEuler.dbody).next_velocity
            + ForwardEuler.accelSum sqrt w.bodies i * dt,
          mass := (w.bodies.getD i ForwardEuler.dbody).mass,
          next_velocity := (w.bodies.getD i ForwardEuler.dbody).next_velocity
            + ForwardEuler.accelSum sqrt w.bodies i * dt } := by
  refine ⟨rfl, ?_, ?_⟩
  · simp only [ForwardEuler.World.tick]
    rw [List.length_map]
    exact fe_stage_length sqrt dt w.bodies
  · intro i hi
    have h1 : i < (kickPass ForwardEuler.dbody (ForwardEuler.accelSum sqrt)
        (fun a b => { b with next_velocity := b.next_velocity + a * dt }) w.bodies).length := by
      rw [fe_stage_length]
      exact hi
    simp only [ForwardEuler.World.tick]
    rw [list_getD_map_lt _ ForwardEuler.dbody ForwardEuler.dbody _ i h1,
      fe_stage_getD sqrt dt w.bodies i hi]


theorem vec3_div_def (v : Vec3) (s : ℚ) : v / s = ⟨v.x / s, v.y / s, v.z / s⟩ := rfl

theorem vec3_sub_self (v : Vec3) : v - v = Vec3.ZERO := by
  cases v
  simp [Vec3.sub_def, Vec3.ZERO]

theorem vec3_length_squared_sub_comm (u v : Vec3) :
    Vec3.length_squared (u - v) = Vec3.length_squared (v - u) := by
  cases u; cases v
  simp only [Vec3.length_squared, Vec3.dot, Vec3.sub_def]
  ring

theorem vec3_vsum_singleton (v : Vec3) : Vec3.vsum [v] = v := by
  rw [Vec3.vsum_cons, Vec3.vsum_nil, ← Vec3.zero_def, add_zero]

theorem vec3_smul_div_two (a : Vec3) (dt : ℚ) : a * dt / (2 : ℚ) = (dt / 2) * a := by
  cases a
  simp only [Vec3.smul_left_def, Vec3.smul_def, vec3_div_def, Vec3.mk.injEq]
  refine ⟨by ring, by ring, by ring⟩

/-- Claim C2: one leapfrog `tick(dt)` (a) drifts every position by the
velocity held before the call, (b) advances the time by `dt`, and (c) kicks
every velocity by `dt ·` the pairwise acceleration recomputed from the *new*
(post-drift) positions.  Stated as the net effect of `tick`: the acceleration
sum in the velocity update is taken over the drifted body list. -/
theorem claim_C2_leapfrog_tick (sqrt : ℚ → ℚ) (dt : ℚ) (w : Leapfrog.World) :
    (w.tick sqrt dt).time = w.time + dt ∧
    (w.tick sqrt dt).bodies.length = w.bodies.length ∧
    ∀ i, i < w.bodies.length →
      (w.tick sqrt dt).bodies.getD i Leapfrog.dbody =
        { position := (w.bodies.getD i Leapfrog.dbody).position
            + (w.bodies.getD i Leapfrog.dbody).velocity * dt,
          velocity := (w.bodies.getD i Leapfrog.dbody).velocity
            + dt * Leapfrog.accelSum sqrt
                (w.bodies.map (fun b => { b with position := b.position + b.velocity * dt })) i,
          mass := (w.bodies.getD i Leapfrog.dbody).mass } := by
  refine ⟨rfl, ?_, ?_⟩
  · simp only [Leapfrog.World.tick]
    rw [lf_kick_length, List.length_map]
  · intro i hi
    have hdr : i < (w.bodies.map
        (fun b => { b with position := b.position + b.velocity * dt })).length := by
      rw [List.length_map]
      exact hi
    simp only [Leapfrog.World.tick]
    rw [lf_kick_getD sqrt dt _ i hdr,
      list_getD_map_lt _ Leapfrog.dbody Leapfrog.dbody _ i hi]

theorem vsum_filterMap_range (n : ℕ) (f : ℕ → Option Vec3) :
    Vec3.vsum ((List.range n).filterMap f) = ∑ j ∈ Finset.range n, (f j).getD 0 := by
  induction n with
  | zero =>
    rw [List.range_zero, List.filterMap_nil, Vec3.vsum_nil, Finset.sum_range_zero, Vec3.zero_def]
  | succ n ih =>
    rw [List.range_succ, List.filterMap_append, Vec3.vsum_append, ih, Finset.sum_range_succ]
    congr 1
    cases hf : f n with
    | none => simp [hf, Vec3.vsum_nil, Vec3.zero_def]
    | some v => simp [hf, vec3_vsum_singleton]

theorem fe_accelSum_erase (sqrt : ℚ → ℚ) (bs : List ForwardEuler.Body) (i : ℕ) :
    ForwardEuler.accelSum sqrt bs i
      = ∑ j ∈ (Finset.range bs.length).erase i,
          ForwardEuler.Body.acceleration sqrt (bs.getD i ForwardEuler.dbody)
            (bs.getD j ForwardEuler.dbody) := by
  rw [ForwardEuler.accelSum, vsum_filterMap_range, ← Finset.filter_ne',
    Finset.sum_filter]
  refine Finset.sum_congr rfl ?_
  intro j _
  by_cases hij : j = i
  · simp [hij]
  · simp [Ne.symm hij, hij]

theorem lf_accelSum_erase (sqrt : ℚ → ℚ) (bs : List Leapfrog.Body) (i : ℕ) :
    Leapfrog.accelSum sqrt bs i
      = ∑ j ∈ (Finset.range bs.length).erase i,
          Leapfrog.Body.acceleration sqrt (bs.getD i Leapfrog.dbody)
            (bs.getD j Leapfrog.dbody) := by
  rw [Leapfrog.accelSum, vsum_filterMap_range, ← Finset.filter_ne', Finset.sum_filter]
  refine Finset.sum_congr rfl ?_
  intro j _
  by_cases hij : j = i
  · simp [hij]
  · simp [Ne.symm hij, hij]

theorem se_accelSum_erase (sqrt : ℚ → ℚ) (bs : List SymplecticEuler.Body) (i : ℕ) :
    SymplecticEuler.accelSum sqrt bs i
      = ∑ j ∈ (Finset.range bs.length).erase i,
          SymplecticEuler.Body.acceleration sqrt (bs.getD i SymplecticEuler.dbody)
            (bs.getD j SymplecticEuler.dbody) := by
  rw [SymplecticEuler.accelSum, vsum_filterMap_range, ← Finset.filter_ne', Finset.sum_filter]
  refine Finset.sum_congr rfl ?_
  intro j _
  by_cases hij : j = i
  · simp [hij]
  · simp [Ne.symm hij, hij]

/-- Claim C3: the acceleration contribution on `i` from `j ≠ i` is
`(mass(j) / |r|³) · r` with `r = position(j) − position(i)` (norm taken through
the abstracted square root), and the total acceleration each integrator step
uses for body `i` — the `accelSum` appearing in every tick/kick loop — is the
sum of this term over all `j ≠ i` of the body list, with no self-term.  Stated
for all three schemes (the symplectic-Euler one modelled from the spec). -/
theorem claim_C3_acceleration_law (sqrt : ℚ → ℚ) :
    (∀ self other : ForwardEuler.Body,
      ForwardEuler.Body.acceleration sqrt self other
        = (other.mass / (Vec3.length sqrt (other.position - self.position)) ^ 3)
            * (other.position - self.position)) ∧
    (∀ (bs : List ForwardEuler.Body) (i : ℕ),
      ForwardEuler.accelSum sqrt bs i
        = ∑ j ∈ (Finset.range bs.length).erase i,
            ForwardEuler.Body.acceleration sqrt (bs.getD i ForwardEuler.dbody)
              (bs.getD j ForwardEuler.dbody)) ∧
    (∀ self other : Leapfrog.Body,
      Leapfrog.Body.acceleration sqrt self other
        = (other.mass / (Vec3.length sqrt (other.position - self.position)) ^ 3)
            * (other.position - self.position)) ∧
    (∀ (bs : List Leapfrog.Body) (i : ℕ),
      Leapfrog.accelSum sqrt bs i
        = ∑ j ∈ (Finset.range bs.length).erase i,
            Leapfrog.Body.acceleration sqrt (bs.getD i Leapfrog.dbody)
              (bs.getD j Leapfrog.dbody)) ∧
    (∀ self other : SymplecticEuler.Body,
      SymplecticEuler.Body.acceleration sqrt self other
        = (other.mass / (Vec3.length sqrt (other.position - self.position)) ^ 3)
            * (other.position - self.position)) ∧
    (∀ (bs : List SymplecticEuler.Body) (i : ℕ),
      SymplecticEuler.accelSum sqrt bs i
        = ∑ j ∈ (Finset.range bs.length).erase i,
            SymplecticEuler.Body.acceleration sqrt (bs.getD i SymplecticEuler.dbody)
              (bs.getD j SymplecticEuler.dbody)) :=
  ⟨fun _ _ => rfl, fe_accelSum_erase sqrt, fun _ _ => rfl, lf_accelSum_erase sqrt,
    fun _ _ => rfl, se_accelSum_erase sqrt⟩

/-- Claim C4: `half_tick_velocity(dt)` updates every body's velocity to
`velocity + (dt/2) · acceleration`, with the acceleration sum computed from
the positions at the time of the call, and leaves every position and the
world's time unchanged. -/
theorem claim_C4_leapfrog_half_tick (sqrt : ℚ → ℚ) (dt : ℚ) (w : Leapfrog.World) :
    (w.half_tick_velocity sqrt dt).time = w.time ∧
    (w.half_tick_velocity sqrt dt).bodies.length = w.bodies.length ∧
    ∀ i, i < w.bodies.length →
      (w.half_tick_velocity sqrt dt).bodies.getD i Leapfrog.dbody =
        { position := (w.bodies.getD i Leapfrog.dbody).position,
          velocity := (w.bodies.getD i Leapfrog.dbody).velocity
            + (dt / 2) * Leapfrog.accelSum sqrt w.bodies i,
          mass := (w.bodies.getD i Leapfrog.dbody).mass } := by
  refine ⟨rfl, ?_, ?_⟩
  · simp only [Leapfrog.World.half_tick_velocity]
    exact lf_halfkick_length sqrt dt w.bodies
  · intro i hi
    simp only [Leapfrog.World.half_tick_velocity]
    rw [lf_halfkick_getD sqrt dt w.bodies i hi, vec3_smul_div_two]

theorem fe_accelSum_pair_zero (sqrt : ℚ → ℚ) (b0 b1 : ForwardEuler.Body) :
    ForwardEuler.accelSum sqrt [b0, b1] 0 = ForwardEuler.Body.acceleration sqrt b0 b1 := by
  simp [ForwardEuler.accelSum, List.range_succ, List.filterMap_cons,
    List.getD_cons_zero, List.getD_cons_succ, vec3_vsum_singleton]

theorem fe_accelSum_pair_one (sqrt : ℚ → ℚ) (b0 b1 : ForwardEuler.Body) :
    ForwardEuler.accelSum sqrt [b0, b1] 1 = ForwardEuler.Body.acceleration sqrt b1 b0 := by
  simp [ForwardEuler.accelSum, List.range_succ, List.filterMap_cons,
    List.getD_cons_zero, List.getD_cons_succ, vec3_vsum_singleton]

theorem lf_accelSum_pair_zero (sqrt : ℚ → ℚ) (b0 b1 : Leapfrog.Body) :
    Leapfrog.accelSum sqrt [b0, b1] 0 = Leapfrog.Body.acceleration sqrt b0 b1 := by
  simp [Leapfrog.accelSum, List.range_succ, List.filterMap_cons,
    List.getD_cons_zero, List.getD_cons_succ, vec3_vsum_singleton]

theorem lf_accelSum_pair_one (sqrt : ℚ → ℚ) (b0 b1 : Leapfrog.Body) :
    Leapfrog.accelSum sqrt [b0, b1] 1 = Leapfrog.Body.acceleration sqrt b1 b0 := by
  simp [Leapfrog.accelSum, List.range_succ, List.filterMap_cons,
    List.getD_cons_zero, List.getD_cons_succ, vec3_vsum_singleton]

theorem se_accelSum_pair_zero (sqrt : ℚ → ℚ) (b0 b1 : SymplecticEuler.Body) :
    SymplecticEuler.accelSum sqrt [b0, b1] 0 = SymplecticEuler.Body.acceleration sqrt b0 b1 := by
  simp [SymplecticEuler.accelSum, List.range_succ, List.filterMap_cons,
    List.getD_cons_zero, List.getD_cons_succ, vec3_vsum_singleton]

theorem se_accelSum_pair_one (sqrt : ℚ → ℚ) (b0 b1 : SymplecticEuler.Body) :
    SymplecticEuler.accelSum sqrt [b0, b1] 1 = SymplecticEuler.Body.acceleration sqrt b1 b0 := by
  simp [SymplecticEuler.accelSum, List.range_succ, List.filterMap_cons,
    List.getD_cons_zero, List.getD_cons_succ, vec3_vsum_singleton]

theorem newton_third_core (L m0 m1 : ℚ) (p0 p1 : Vec3) :
    m0 * ((m1 / L ^ 3) * (p1 - p0)) = -(m1 * ((m0 / L ^ 3) * (p0 - p1))) := by
  cases p0; cases p1
  simp only [Vec3.sub_def, Vec3.smul_left_def, Vec3.smul_def, Vec3.neg_def, Vec3.mk.injEq]
  refine ⟨by ring, by ring, by ring⟩

theorem fe_pair_newton (sqrt : ℚ → ℚ) (b0 b1 : ForwardEuler.Body) :
    b0.mass * ForwardEuler.accelSum sqrt [b0, b1] 0
      = -(b1.mass * ForwardEuler.accelSum sqrt [b0, b1] 1) := by
  rw [fe_accelSum_pair_zero, fe_accelSum_pair_one]
  have hL : Vec3.length sqrt (b0.position - b1.position)
      = Vec3.length sqrt (b1.position - b0.position) := by
    rw [Vec3.length, Vec3.length, vec3_length_squared_sub_comm]
  simp only [ForwardEuler.Body.acceleration]
  rw [hL]
  exact newton_third_core _ _ _ _ _

theorem lf_pair_newton (sqrt : ℚ → ℚ) (b0 b1 : Leapfrog.Body) :
    b0.mass * Leapfrog.accelSum sqrt [b0, b1] 0
      = -(b1.mass * Leapfrog.accelSum sqrt [b0, b1] 1) := by
  rw [lf_accelSum_pair_zero, lf_accelSum_pair_one]
  have hL : Vec3.length sqrt (b0.position - b1.position)
      = Vec3.length sqrt (b1.position - b0.position) := by
    rw [Vec3.length, Vec3.length, vec3_length_squared_sub_comm]
  simp only [Leapfrog.Body.acceleration]
  rw [hL]
  exact newton_third_core _ _ _ _ _

theorem se_pair_newton (sqrt : ℚ → ℚ) (b0 b1 : SymplecticEuler.Body) :
    b0.mass * SymplecticEuler.accelSum sqrt [b0, b1] 0
      = -(b1.mass * SymplecticEuler.accelSum sqrt [b0, b1] 1) := by
  rw [se_accelSum_pair_zero, se_accelSum_pair_one]
  have hL : Vec3.length sqrt (b0.position - b1.position)
      = Vec3.length sqrt (b1.position - b0.position) := by
    rw [Vec3.length, Vec3.length, vec3_length_squared_sub_comm]
  simp only [SymplecticEuler.Body.acceleration]
  rw [hL]
  exact newton_third_core _ _ _ _ _

/-- Counterexample to claim C5 as stated: for the 2-body forward-Euler world
with masses `Gm = 1` and `Gm = 2` at rest at unit separation (the square root
is instantiated as the identity; at the value it is actually applied to,
`|r|² = 1`, the IEEE `f64::sqrt` is likewise exact), the two total
acceleration vectors computed within one tick are `(2,0,0)` on body 0 and
`(−1,0,0)` on body 1 — not negatives of each other.  Both bodies start at
rest with staged `next_velocity = velocity = 0` and `dt = 1`, so each
committed post-tick velocity equals the acceleration vector the tick
computed. -/
theorem claim_C5_counterexample :
    ((((ForwardEuler.World.new
          [ForwardEuler.Body.new ⟨0, 0, 0⟩ ⟨0, 0, 0⟩ 1,
           ForwardEuler.Body.new ⟨1, 0, 0⟩ ⟨0, 0, 0⟩ 2]).tick (fun q => q) 1).bodies.getD 0
            ForwardEuler.dbody).velocity = ⟨2, 0, 0⟩) ∧
    ((((ForwardEuler.World.new
          [ForwardEuler.Body.new ⟨0, 0, 0⟩ ⟨0, 0, 0⟩ 1,
           ForwardEuler.Body.new ⟨1, 0, 0⟩ ⟨0, 0, 0⟩ 2]).tick (fun q => q) 1).bodies.getD 1
            ForwardEuler.dbody).velocity = ⟨-1, 0, 0⟩) ∧
    ¬ ((((ForwardEuler.World.new
          [ForwardEuler.Body.new ⟨0, 0, 0⟩ ⟨0, 0, 0⟩ 1,
           ForwardEuler.Body.new ⟨1, 0, 0⟩ ⟨0, 0, 0⟩ 2]).tick (fun q => q) 1).bodies.getD 0
            ForwardEuler.dbody).velocity
        = -((((ForwardEuler.World.new
          [ForwardEuler.Body.new ⟨0, 0, 0⟩ ⟨0, 0, 0⟩ 1,
           ForwardEuler.Body.new ⟨1, 0, 0⟩ ⟨0, 0, 0⟩ 2]).tick (fun q => q) 1).bodies.getD 1
            ForwardEuler.dbody).velocity)) := by
  norm_num [ForwardEuler.World.tick, ForwardEuler.World.new, kickPass, kickStep,
    ForwardEuler.accelSum, ForwardEuler.Body.acceleration, ForwardEuler.Body.new,
    ForwardEuler.dbody, Vec3.vsum, Vec3.length, Vec3.length_squared, Vec3.dot,
    Vec3.add_def, Vec3.sub_def, Vec3.smul_def, Vec3.smul_left_def, Vec3.ZERO,
    List.range_succ, List.filterMap_cons, Vec3.zero_def, Vec3.neg_def, Vec3.mk.injEq]

/-- Claim C5, amended: for every 2-body world of every scheme, the two total
acceleration vectors computed within one tick, *each weighted by the mass of
the body it accelerates* — i.e. the two gravitational forces — are exact
negatives of each other (Newton's third law).  The unweighted accelerations
are negatives only when the two masses coincide (see the counterexample). -/
theorem claim_C5_amended_newton (sqrt : ℚ → ℚ) :
    (∀ b0 b1 : ForwardEuler.Body,
      b0.mass * ForwardEuler.accelSum sqrt [b0, b1] 0
        = -(b1.mass * ForwardEuler.accelSum sqrt [b0, b1] 1)) ∧
    (∀ b0 b1 : Leapfrog.Body,
      b0.mass * Leapfrog.accelSum sqrt [b0, b1] 0
        = -(b1.mass * Leapfrog.accelSum sqrt [b0, b1] 1)) ∧
    (∀ b0 b1 : SymplecticEuler.Body,
      b0.mass * SymplecticEuler.accelSum sqrt [b0, b1] 0
        = -(b1.mass * SymplecticEuler.accelSum sqrt [b0, b1] 1)) :=
  ⟨fe_pair_newton sqrt, lf_pair_newton sqrt, se_pair_newton sqrt⟩

theorem list_getD_lt {β : Type} (bs : List β) (i : ℕ) (db : β) (h : i < bs.length) :
    bs.getD i db = bs.get ⟨i, h⟩ := by
  rw [List.getD_eq_getElem?_getD, List.getElem?_eq_getElem h]
  rfl

theorem fe_rest_frame_zero (w : ForwardEuler.World) (i : ℕ) (h : i < w.bodies.length) :
    ((w.into_rest_frame i).bodies.getD i ForwardEuler.dbody).position = Vec3.ZERO ∧
    ((w.into_rest_frame i).bodies.getD i ForwardEuler.dbody).velocity = Vec3.ZERO := by
  simp only [ForwardEuler.World.into_rest_frame]
  rw [List.getElem?_eq_getElem h,
    list_getD_map_lt _ ForwardEuler.dbody ForwardEuler.dbody _ i h,
    list_getD_lt w.bodies i ForwardEuler.dbody h]
  simp only [Option.map_some', Option.getD_some, List.get_eq_getElem]
  exact ⟨vec3_sub_self _, vec3_sub_self _⟩

theorem lf_rest_frame_zero (w : Leapfrog.World) (i : ℕ) (h : i < w.bodies.length) :
    ((w.into_rest_frame i).bodies.getD i Leapfrog.dbody).position = Vec3.ZERO ∧
    ((w.into_rest_frame i).bodies.getD i Leapfrog.dbody).velocity = Vec3.ZERO := by
  simp only [Leapfrog.World.into_rest_frame]
  rw [List.getElem?_eq_getElem h,
    list_getD_map_lt _ Leapfrog.dbody Leapfrog.dbody _ i h,
    list_getD_lt w.bodies i Leapfrog.dbody h]
  simp only [Option.map_some', Option.getD_some, List.get_eq_getElem]
  exact ⟨vec3_sub_self _, vec3_sub_self _⟩

theorem se_rest_frame_zero (w : SymplecticEuler.World) (i : ℕ) (h : i < w.bodies.length) :
    ((w.into_rest_frame i).bodies.getD i SymplecticEuler.dbody).position = Vec3.ZERO ∧
    ((w.into_rest_frame i).bodies.getD i SymplecticEuler.dbody).velocity = Vec3.ZERO := by
  simp only [SymplecticEuler.World.into_rest_frame]
  rw [List.getElem?_eq_getElem h,
    list_getD_map_lt _ SymplecticEuler.dbody SymplecticEuler.dbody _ i h,
    list_getD_lt w.bodies i SymplecticEuler.dbody h]
  simp only [Option.map_some', Option.getD_some, List.get_eq_getElem]
  exact ⟨vec3_sub_self _, vec3_sub_self _⟩

/-- Claim C6: after `into_rest_frame(i)` with a valid index `i`, the body at
index `i` has position and velocity exactly the zero vector, for every scheme
(the symplectic-Euler transform modelled from the spec). -/
theorem claim_C6_rest_frame_reference_zero :
    (∀ (w : ForwardEuler.World) (i : ℕ), i < w.bodies.length →
      ((w.into_rest_frame i).bodies.getD i ForwardEuler.dbody).position = Vec3.ZERO ∧
      ((w.into_rest_frame i).bodies.getD i ForwardEuler.dbody).velocity = Vec3.ZERO) ∧
    (∀ (w : Leapfrog.World) (i : ℕ), i < w.bodies.length →
      ((w.into_rest_frame i).bodies.getD i Leapfrog.dbody).position = Vec3.ZERO ∧
      ((w.into_rest_frame i).bodies.getD i Leapfrog.dbody).velocity = Vec3.ZERO) ∧
    (∀ (w : SymplecticEuler.World) (i : ℕ), i < w.bodies.length →
      ((w.into_rest_frame i).bodies.getD i SymplecticEuler.dbody).position = Vec3.ZERO ∧
      ((w.into_rest_frame i).bodies.getD i SymplecticEuler.dbody).velocity = Vec3.ZERO) :=
  ⟨fe_rest_frame_zero, lf_rest_frame_zero, se_rest_frame_zero⟩

theorem fe_rest_frame_oob (w : ForwardEuler.World) (i : ℕ) (h : w.bodies.length ≤ i) :
    w.into_rest_frame i = w := by
  simp only [ForwardEuler.World.into_rest_frame]
  rw [List.getElem?_eq_none h]
  simp only [Option.map_none', Option.getD_none]
  have hmap : w.bodies.map (fun b =>
      { b with position := b.position - (Vec3.ZERO, Vec3.ZERO).1,
               velocity := b.velocity - (Vec3.ZERO, Vec3.ZERO).2,
               next_velocity := b.next_velocity - (Vec3.ZERO, Vec3.ZERO).2 }) = w.bodies := by
    have : ∀ b ∈ w.bodies, (⟨b.position - (Vec3.ZERO, Vec3.ZERO).1,
        b.velocity - (Vec3.ZERO, Vec3.ZERO).2, b.mass,
        b.next_velocity - (Vec3.ZERO, Vec3.ZERO).2⟩ : ForwardEuler.Body) = id b := by
      intro b _
      cases b
      simp [Vec3.sub_zero_eq]
    rw [List.map_congr_left this, List.map_id]
  rw [hmap]

theorem lf_rest_frame_oob (w : Leapfrog.World) (i : ℕ) (h : w.bodies.length ≤ i) :
    w.into_rest_frame i = w := by
  simp only [Leapfrog.World.into_rest_frame]
  rw [List.getElem?_eq_none h]
  simp only [Option.map_none', Option.getD_none]
  have hmap : w.bodies.map (fun b =>
      { b with position := b.position - (Vec3.ZERO, Vec3.ZERO).1,
               velocity := b.velocity - (Vec3.ZERO, Vec3.ZERO).2 }) = w.bodies := by
    have : ∀ b ∈ w.bodies, (⟨b.position - (Vec3.ZERO, Vec3.ZERO).1,
        b.velocity - (Vec3.ZERO, Vec3.ZERO).2, b.mass⟩ : Leapfrog.Body) = id b := by
      intro b _
      cases b
      simp [Vec3.sub_zero_eq]
    rw [List.map_congr_left this, List.map_id]
  rw [hmap]

theorem se_rest_frame_oob (w : SymplecticEuler.World) (i : ℕ) (h : w.bodies.length ≤ i) :
    w.into_rest_frame i = w := by
  simp only [SymplecticEuler.World.into_rest_frame]
  rw [List.getElem?_eq_none h]
  simp only [Option.map_none', Option.getD_none]
  have hmap : w.bodies.map (fun b =>
      { b with position := b.position - (Vec3.ZERO, Vec3.ZERO).1,
               velocity := b.velocity - (Vec3.ZERO, Vec3.ZERO).2 }) = w.bodies := by
    have : ∀ b ∈ w.bodies, (⟨b.position - (Vec3.ZERO, Vec3.ZERO).1,
        b.velocity - (Vec3.ZERO, Vec3.ZERO).2, b.mass⟩ : SymplecticEuler.Body) = id b := by
      intro b _
      cases b
      simp [Vec3.sub_zero_eq]
    rw [List.map_congr_left this, List.map_id]
  rw [hmap]

/-- Claim C7: `into_rest_frame(index)` with `index ≥ body count` is a no-op:
the world — every body's position, velocity and (for forward Euler) staged
`next_velocity`, and the time — is unchanged, for every scheme (the
symplectic-Euler transform modelled from the spec). -/
theorem claim_C7_rest_frame_out_of_range_noop :
    (∀ (w : ForwardEuler.World) (i : ℕ), w.bodies.length ≤ i → w.into_rest_frame i = w) ∧
    (∀ (w : Leapfrog.World) (i : ℕ), w.bodies.length ≤ i → w.into_rest_frame i = w) ∧
    (∀ (w : SymplecticEuler.World) (i : ℕ), w.bodies.length ≤ i → w.into_rest_frame i = w) :=
  ⟨fe_rest_frame_oob, lf_rest_frame_oob, se_rest_frame_oob⟩

theorem fe_ticks_time_monotone (sqrt : ℚ → ℚ) :
    ∀ (dts : List ℚ) (w : ForwardEuler.World), (∀ d ∈ dts, 0 < d) →
      w.time ≤ (dts.foldl (fun u d => u.tick sqrt d) w).time := by
  intro dts
  induction dts with
  | nil => exact fun w _ => le_refl _
  | cons d ds ih =>
    intro w hpos
    have hd : 0 < d := hpos d (List.mem_cons_self d ds)
    have hds : ∀ e ∈ ds, 0 < e := fun e he => hpos e (List.mem_cons_of_mem d he)
    calc w.time ≤ (w.tick sqrt d).time := by
          show w.time ≤ w.time + d
          exact le_add_of_nonneg_right (le_of_lt hd)
      _ ≤ ((d :: ds).foldl (fun u e => u.tick sqrt e) w).time := by
          rw [List.foldl_cons]
          exact ih (w.tick sqrt d) hds

theorem lf_ticks_time_monotone (sqrt : ℚ → ℚ) :
    ∀ (dts : List ℚ) (w : Leapfrog.World), (∀ d ∈ dts, 0 < d) →
      w.time ≤ (dts.foldl (fun u d => u.tick sqrt d) w).time := by
  intro dts
  induction dts with
  | nil => exact fun w _ => le_refl _
  | cons d ds ih =>
    intro w hpos
    have hd : 0 < d := hpos d (List.mem_cons_self d ds)
    have hds : ∀ e ∈ ds, 0 < e := fun e he => hpos e (List.mem_cons_of_mem d he)
    calc w.time ≤ (w.tick sqrt d).time := by
          show w.time ≤ w.time + d
          exact le_add_of_nonneg_right (le_of_lt hd)
      _ ≤ ((d :: ds).foldl (fun u e => u.tick sqrt e) w).time := by
          rw [List.foldl_cons]
          exact ih (w.tick sqrt d) hds

theorem se_ticks_time_monotone (sqrt : ℚ → ℚ) :
    ∀ (dts : List ℚ) (w : SymplecticEuler.World), (∀ d ∈ dts, 0 < d) →
      w.time ≤ (dts.foldl (fun u d => u.tick sqrt d) w).time := by
  intro dts
  induction dts with
  | nil => exact fun w _ => le_refl _
  | cons d ds ih =>
    intro w hpos
    have hd : 0 < d := hpos d (List.mem_cons_self d ds)
    have hds : ∀ e ∈ ds, 0 < e := fun e he => hpos e (List.mem_cons_of_mem d he)
    calc w.time ≤ (w.tick sqrt d).time := by
          show w.time ≤ w.time + d
          exact le_add_of_nonneg_right (le_of_lt hd)
      _ ≤ ((d :: ds).foldl (fun u e => u.tick sqrt e) w).time := by
          rw [List.foldl_cons]
          exact ih (w.tick sqrt d) hds

/-- Claim C8: for every scheme, time starts at `0` on construction, each
`tick(dt)` sets it to exactly `time + dt`, the time is monotonically
non-decreasing over any sequence of ticks with positive durations, and
`half_tick_velocity` and `into_rest_frame` never change it (symplectic Euler
modelled from the spec). -/
theorem claim_C8_time_accounting :
    ((∀ bs : List ForwardEuler.Body, (ForwardEuler.World.new bs).time = 0) ∧
     (∀ (sqrt : ℚ → ℚ) (dt : ℚ) (w : ForwardEuler.World),
       (w.tick sqrt dt).time = w.time + dt) ∧
     (∀ (i : ℕ) (w : ForwardEuler.World), (w.into_rest_frame i).time = w.time) ∧
     (∀ (sqrt : ℚ → ℚ) (dts : List ℚ) (w : ForwardEuler.World), (∀ d ∈ dts, 0 < d) →
       w.time ≤ (dts.foldl (fun u d => u.tick sqrt d) w).time)) ∧
    ((∀ bs : List Leapfrog.Body, (Leapfrog.World.new bs).time = 0) ∧
     (∀ (sqrt : ℚ → ℚ) (dt : ℚ) (w : Leapfrog.World),
       (w.tick sqrt dt).time = w.time + dt) ∧
     (∀ (sqrt : ℚ → ℚ) (dt : ℚ) (w : Leapfrog.World),
       (w.half_tick_velocity sqrt dt).time = w.time) ∧
     (∀ (i : ℕ) (w : Leapfrog.World), (w.into_rest_frame i).time = w.time) ∧
     (∀ (sqrt : ℚ → ℚ) (dts : List ℚ) (w : Leapfrog.World), (∀ d ∈ dts, 0 < d) →
       w.time ≤ (dts.foldl (fun u d => u.tick sqrt d) w).time)) ∧
    ((∀ bs : List SymplecticEuler.Body, (SymplecticEuler.World.new bs).time = 0) ∧
     (∀ (sqrt : ℚ → ℚ) (dt : ℚ) (w : SymplecticEuler.World),
       (w.tick sqrt dt).time = w.time + dt) ∧
     (∀ (i : ℕ) (w : SymplecticEuler.World), (w.into_rest_frame i).time = w.time) ∧
     (∀ (sqrt : ℚ → ℚ) (dts : List ℚ) (w : SymplecticEuler.World), (∀ d ∈ dts, 0 < d) →
       w.time ≤ (dts.foldl (fun u d => u.tick sqrt d) w).time)) :=
  ⟨⟨fun _ => rfl, fun _ _ _ => rfl, fun _ _ => rfl,
      fun sqrt dts w h => fe_ticks_time_monotone sqrt dts w h⟩,
   ⟨fun _ => rfl, fun _ _ _ => rfl, fun _ _ _ => rfl, fun _ _ => rfl,
      fun sqrt dts w h => lf_ticks_time_monotone sqrt dts w h⟩,
   ⟨fun _ => rfl, fun _ _ _ => rfl, fun _ _ => rfl,
      fun sqrt dts w h => se_ticks_time_monotone sqrt dts w h⟩⟩

theorem vec3_smul_zero_right (s : ℚ) : s * Vec3.ZERO = Vec3.ZERO := by
  simp only [Vec3.smul_left_def, Vec3.smul_def, Vec3.ZERO, Vec3.mk.injEq]
  refine ⟨by ring, by ring, by ring⟩

theorem vec3_zero_smul_left (s : ℚ) : Vec3.ZERO * s = Vec3.ZERO := by
  simp only [Vec3.smul_def, Vec3.ZERO, Vec3.mk.injEq]
  refine ⟨by ring, by ring, by ring⟩

theorem vec3_add_ZERO (v : Vec3) : v + Vec3.ZERO = v := by
  rw [← Vec3.zero_def, add_zero]

theorem fe_accelSum_small (sqrt : ℚ → ℚ) (bs : List ForwardEuler.Body) (h : bs.length ≤ 1)
    (i : ℕ) (hi : i < bs.length) : ForwardEuler.accelSum sqrt bs i = Vec3.ZERO := by
  cases bs with
  | nil => exact absurd hi (by simp)
  | cons b tl =>
    cases tl with
    | nil =>
      have hi0 : i = 0 := Nat.lt_one_iff.mp (by simpa using hi)
      subst hi0
      simp [ForwardEuler.accelSum, List.range_succ, Vec3.vsum_nil]
    | cons b2 tl2 =>
      exact absurd h (by simp)

theorem lf_accelSum_small (sqrt : ℚ → ℚ) (bs : List Leapfrog.Body) (h : bs.length ≤ 1)
    (i : ℕ) (hi : i < bs.length) : Leapfrog.accelSum sqrt bs i = Vec3.ZERO := by
  cases bs with
  | nil => exact absurd hi (by simp)
  | cons b tl =>
    cases tl with
    | nil =>
      have hi0 : i = 0 := Nat.lt_one_iff.mp (by simpa using hi)
      subst hi0
      simp [Leapfrog.accelSum, List.range_succ, Vec3.vsum_nil]
    | cons b2 tl2 =>
      exact absurd h (by simp)

theorem se_accelSum_small (sqrt : ℚ → ℚ) (bs : List SymplecticEuler.Body) (h : bs.length ≤ 1)
    (i : ℕ) (hi : i < bs.length) : SymplecticEuler.accelSum sqrt bs i = Vec3.ZERO := by
  cases bs with
  | nil => exact absurd hi (by simp)
  | cons b tl =>
    cases tl with
    | nil =>
      have hi0 : i = 0 := Nat.lt_one_iff.mp (by simpa using hi)
      subst hi0
      simp [SymplecticEuler.accelSum, List.range_succ, Vec3.vsum_nil]
    | cons b2 tl2 =>
      exact absurd h (by simp)

/-- Claim C9: a world with zero or one body ticks without error: the computed
acceleration sum is exactly zero (no self-force), every velocity is unchanged,
and a single body's position moves only by `dt · velocity`.  For forward Euler
the statement carries the representation invariant `next_velocity = velocity`,
which `Body::new` establishes (the field is private) and every operation
preserves.  All three schemes are covered (symplectic Euler modelled from the
spec). -/
theorem claim_C9_small_world_trivial_tick :
    (∀ (sqrt : ℚ → ℚ) (dt : ℚ) (w : ForwardEuler.World), w.bodies.length ≤ 1 →
      (∀ b ∈ w.bodies, b.next_velocity = b.velocity) →
      (∀ i, i < w.bodies.length → ForwardEuler.accelSum sqrt w.bodies i = Vec3.ZERO) ∧
      (w.tick sqrt dt).bodies.length = w.bodies.length ∧
      (∀ i, i < w.bodies.length →
        (w.tick sqrt dt).bodies.getD i ForwardEuler.dbody =
          { position := (w.bodies.getD i ForwardEuler.dbody).position
              + (w.bodies.getD i ForwardEuler.dbody).velocity * dt,
            velocity := (w.bodies.getD i ForwardEuler.dbody).velocity,
            mass := (w.bodies.getD i ForwardEuler.dbody).mass,
            next_velocity := (w.bodies.getD i ForwardEuler.dbody).velocity })) ∧
    (∀ (sqrt : ℚ → ℚ) (dt : ℚ) (w : Leapfrog.World), w.bodies.length ≤ 1 →
      (∀ i, i < w.bodies.length → Leapfrog.accelSum sqrt w.bodies i = Vec3.ZERO) ∧
      (w.tick sqrt dt).bodies.length = w.bodies.length ∧
      (∀ i, i < w.bodies.length →
        (w.tick sqrt dt).bodies.getD i Leapfrog.dbody =
          { position := (w.bodies.getD i Leapfrog.dbody).position
              + (w.bodies.getD i Leapfrog.dbody).velocity * dt,
            velocity := (w.bodies.getD i Leapfrog.dbody).velocity,
            mass := (w.bodies.getD i Leapfrog.dbody).mass })) ∧
    (∀ (sqrt : ℚ → ℚ) (dt : ℚ) (w : SymplecticEuler.World), w.bodies.length ≤ 1 →
      (∀ i, i < w.bodies.length → SymplecticEuler.accelSum sqrt w.bodies i = Vec3.ZERO) ∧
      (w.tick sqrt dt).bodies.length = w.bodies.length ∧
      (∀ i, i < w.bodies.length →
        (w.tick sqrt dt).bodies.getD i SymplecticEuler.dbody =
          { position := (w.bodies.getD i SymplecticEuler.dbody).position
              + (w.bodies.getD i SymplecticEuler.dbody).velocity * dt,
            velocity := (w.bodies.getD i SymplecticEuler.dbody).velocity,
            mass := (w.bodies.getD i SymplecticEuler.dbody).mass })) := by
  refine ⟨?_, ?_, ?_⟩
  · intro sqrt dt w hlen hnv
    refine ⟨fe_accelSum_small sqrt w.bodies hlen, ?_, ?_⟩
    · simp only [ForwardEuler.World.tick]
      rw [List.length_map]
      exact fe_stage_length sqrt dt w.bodies
    · intro i hi
      have h1 : i < (kickPass ForwardEuler.dbody (ForwardEuler.accelSum sqrt)
          (fun a b => { b with next_velocity := b.next_velocity + a * dt }) w.bodies).length := by
        rw [fe_stage_length]
        exact hi
      have hmem : w.bodies.getD i ForwardEuler.dbody ∈ w.bodies := by
        rw [list_getD_lt w.bodies i ForwardEuler.dbody hi]
        exact List.get_mem w.bodies _ _
      simp only [ForwardEuler.World.tick]
      rw [list_getD_map_lt _ ForwardEuler.dbody ForwardEuler.dbody _ i h1,
        fe_stage_getD sqrt dt w.bodies i hi,
        fe_accelSum_small sqrt w.bodies hlen i hi, vec3_zero_smul_left,
        vec3_add_ZERO, hnv _ hmem]
  · intro sqrt dt w hlen
    have hdlen : (w.bodies.map
        (fun b => { b with position := b.position + b.velocity * dt })).length
        = w.bodies.length := List.length_map ..
    refine ⟨lf_accelSum_small sqrt w.bodies hlen, ?_, ?_⟩
    · simp only [Leapfrog.World.tick]
      rw [lf_kick_length, List.length_map]
    · intro i hi
      have hdr : i < (w.bodies.map
          (fun b => { b with position := b.position + b.velocity * dt })).length := by
        rw [hdlen]
        exact hi
      simp only [Leapfrog.World.tick]
      rw [lf_kick_getD sqrt dt _ i hdr,
        lf_accelSum_small sqrt _ (by rw [hdlen]; exact hlen) i hdr,
        vec3_smul_zero_right, vec3_add_ZERO,
        list_getD_map_lt _ Leapfrog.dbody Leapfrog.dbody _ i hi]
  · intro sqrt dt w hlen
    have hklen : (kickPass SymplecticEuler.dbody (SymplecticEuler.accelSum sqrt)
        (fun a b => { b with velocity := b.velocity + a * dt }) w.bodies).length
        = w.bodies.length := se_kick_length sqrt dt w.bodies
    refine ⟨se_accelSum_small sqrt w.bodies hlen, ?_, ?_⟩
    · simp only [SymplecticEuler.World.tick]
      rw [List.length_map, hklen]
    · intro i hi
      have hki : i < (kickPass SymplecticEuler.dbody (SymplecticEuler.accelSum sqrt)
          (fun a b => { b with velocity := b.velocity + a * dt }) w.bodies).length := by
        rw [hklen]
        exact hi
      simp only [SymplecticEuler.World.tick]
      rw [list_getD_map_lt _ SymplecticEuler.dbody SymplecticEuler.dbody _ i hki,
        se_kick_getD sqrt dt w.bodies i hi,
        se_accelSum_small sqrt w.bodies hlen i hi, vec3_zero_smul_left, vec3_add_ZERO]

theorem kickPass_map_pm {β γ : Type} (pm : β → γ) (db : β)
    (accel : List β → ℕ → Vec3) (kick : Vec3 → β → β)
    (hkick : ∀ a b, pm (kick a b) = pm b)
    (haccel : ∀ bs1 bs2, bs1.map pm = bs2.map pm → ∀ i, accel bs1 i = accel bs2 i)
    (bs : List β) : (kickPass db accel kick bs).map pm = bs.map pm :=
  (kickPass_fold_spec pm db accel kick hkick haccel bs bs.length (Nat.le_refl _)).2.1

theorem list_map_mass_of_map_pm {β : Type} (pmf : β → Vec3 × ℚ) (massf : β → ℚ)
    (hcomp : ∀ b, massf b = (pmf b).2) {bs bs' : List β} (h : bs.map pmf = bs'.map pmf) :
    bs.map massf = bs'.map massf := by
  have hm : massf = Prod.snd ∘ pmf := funext hcomp
  rw [hm, ← List.map_map, ← List.map_map, h]

theorem list_map_map_mass {β : Type} (massf : β → ℚ) (f : β → β) (bs : List β)
    (hf : ∀ b ∈ bs, massf (f b) = massf b) :
    (bs.map f).map massf = bs.map massf := by
  induction bs with
  | nil => rfl
  | cons hd tl ih =>
    rw [List.map_cons, List.map_cons, List.map_cons, hf hd (List.mem_cons_self hd tl),
      ih (fun b hb => hf b (List.mem_cons_of_mem hd hb))]

theorem fe_tick_mass (sqrt : ℚ → ℚ) (dt : ℚ) (w : ForwardEuler.World) :
    (w.tick sqrt dt).bodies.map ForwardEuler.Body.mass
      = w.bodies.map ForwardEuler.Body.mass := by
  simp only [ForwardEuler.World.tick]
  refine Eq.trans (list_map_map_mass ForwardEuler.Body.mass _ _ (fun b _ => rfl)) ?_
  apply list_map_mass_of_map_pm ForwardEuler.pm ForwardEuler.Body.mass (fun b => rfl)
  exact kickPass_map_pm ForwardEuler.pm ForwardEuler.dbody (ForwardEuler.accelSum sqrt)
    (fun a b => { b with next_velocity := b.next_velocity + a * dt })
    (fun _ _ => rfl) (fe_accelSum_congr sqrt) w.bodies

theorem fe_rest_mass (i : ℕ) (w : ForwardEuler.World) :
    (w.into_rest_frame i).bodies.map ForwardEuler.Body.mass
      = w.bodies.map ForwardEuler.Body.mass := by
  simp only [ForwardEuler.World.into_rest_frame]
  exact list_map_map_mass ForwardEuler.Body.mass _ _ (fun b _ => rfl)

theorem lf_tick_mass (sqrt : ℚ → ℚ) (dt : ℚ) (w : Leapfrog.World) :
    (w.tick sqrt dt).bodies.map Leapfrog.Body.mass = w.bodies.map Leapfrog.Body.mass := by
  simp only [Leapfrog.World.tick]
  have h2 : (w.bodies.map (fun b =>
        { b with position := b.position + b.velocity * dt })).map Leapfrog.Body.mass
      = w.bodies.map Leapfrog.Body.mass :=
    list_map_map_mass Leapfrog.Body.mass _ _ (fun b _ => rfl)
  refine Eq.trans ?_ h2
  apply list_map_mass_of_map_pm Leapfrog.pm Leapfrog.Body.mass (fun b => rfl)
  exact kickPass_map_pm Leapfrog.pm Leapfrog.dbody (Leapfrog.accelSum sqrt)
    (fun a b => { b with velocity := b.velocity + dt * a })
    (fun _ _ => rfl) (lf_accelSum_congr sqrt)
    (w.bodies.map (fun b => { b with position := b.position + b.velocity * dt }))

theorem lf_half_mass (sqrt : ℚ → ℚ) (dt : ℚ) (w : Leapfrog.World) :
    (w.half_tick_velocity sqrt dt).bodies.map Leapfrog.Body.mass
      = w.bodies.map Leapfrog.Body.mass := by
  simp only [Leapfrog.World.half_tick_velocity]
  apply list_map_mass_of_map_pm Leapfrog.pm Leapfrog.Body.mass (fun b => rfl)
  exact kickPass_map_pm Leapfrog.pm Leapfrog.dbody (Leapfrog.accelSum sqrt)
    (fun a b => { b with velocity := b.velocity + a * dt / (2 : ℚ) })
    (fun _ _ => rfl) (lf_accelSum_congr sqrt) w.bodies

theorem lf_rest_mass (i : ℕ) (w : Leapfrog.World) :
    (w.into_rest_frame i).bodies.map Leapfrog.Body.mass
      = w.bodies.map Leapfrog.Body.mass := by
  simp only [Leapfrog.World.into_rest_frame]
  exact list_map_map_mass Leapfrog.Body.mass _ _ (fun b _ => rfl)

theorem se_tick_mass (sqrt : ℚ → ℚ) (dt : ℚ) (w : SymplecticEuler.World) :
    (w.tick sqrt dt).bodies.map SymplecticEuler.Body.mass
      = w.bodies.map SymplecticEuler.Body.mass := by
  simp only [SymplecticEuler.World.tick]
  refine Eq.trans (list_map_map_mass SymplecticEuler.Body.mass _ _ (fun b _ => rfl)) ?_
  apply list_map_mass_of_map_pm SymplecticEuler.pm SymplecticEuler.Body.mass (fun b => rfl)
  exact kickPass_map_pm SymplecticEuler.pm SymplecticEuler.dbody (SymplecticEuler.accelSum sqrt)
    (fun a b => { b with velocity := b.velocity + a * dt })
    (fun _ _ => rfl) (se_accelSum_congr sqrt) w.bodies

theorem se_rest_mass (i : ℕ) (w : SymplecticEuler.World) :
    (w.into_rest_frame i).bodies.map SymplecticEuler.Body.mass
      = w.bodies.map SymplecticEuler.Body.mass := by
  simp only [SymplecticEuler.World.into_rest_frame]
  exact list_map_map_mass SymplecticEuler.Body.mass _ _ (fun b _ => rfl)

/-- Claim C10: no operation — `tick`, `half_tick_velocity` (leapfrog) or
`into_rest_frame` — ever modifies any body's mass, the number of bodies, or
their order: the ordered list of masses and the body count are preserved by
every operation of every scheme (symplectic Euler modelled from the spec). -/
theorem claim_C10_masses_count_order_preserved (sqrt : ℚ → ℚ) (dt : ℚ) (i : ℕ) :
    (∀ w : ForwardEuler.World,
      (w.tick sqrt dt).bodies.map ForwardEuler.Body.mass
          = w.bodies.map ForwardEuler.Body.mass ∧
      (w.tick sqrt dt).bodies.length = w.bodies.length ∧
      (w.into_rest_frame i).bodies.map ForwardEuler.Body.mass
          = w.bodies.map ForwardEuler.Body.mass ∧
      (w.into_rest_frame i).bodies.length = w.bodies.length) ∧
    (∀ w : Leapfrog.World,
      (w.tick sqrt dt).bodies.map Leapfrog.Body.mass = w.bodies.map Leapfrog.Body.mass ∧
      (w.tick sqrt dt).bodies.length = w.bodies.length ∧
      (w.half_tick_velocity sqrt dt).bodies.map Leapfrog.Body.mass
          = w.bodies.map Leapfrog.Body.mass ∧
      (w.half_tick_velocity sqrt dt).bodies.length = w.bodies.length ∧
      (w.into_rest_frame i).bodies.map Leapfrog.Body.mass
          = w.bodies.map Leapfrog.Body.mass ∧
      (w.into_rest_frame i).bodies.length = w.bodies.length) ∧
    (∀ w : SymplecticEuler.World,
      (w.tick sqrt dt).bodies.map SymplecticEuler.Body.mass
          = w.bodies.map SymplecticEuler.Body.mass ∧
      (w.tick sqrt dt).bodies.length = w.bodies.length ∧
      (w.into_rest_frame i).bodies.map SymplecticEuler.Body.mass
          = w.bodies.map SymplecticEuler.Body.mass ∧
      (w.into_rest_frame i).bodies.length = w.bodies.length) := by
  refine ⟨?_, ?_, ?_⟩
  · intro w
    refine ⟨fe_tick_mass sqrt dt w, ?_, fe_rest_mass i w, ?_⟩
    · have := congrArg List.length (fe_tick_mass sqrt dt w)
      simpa using this
    · have := congrArg List.length (fe_rest_mass i w)
      simpa using this
  · intro w
    refine ⟨lf_tick_mass sqrt dt w, ?_, lf_half_mass sqrt dt w, ?_, lf_rest_mass i w, ?_⟩
    · have := congrArg List.length (lf_tick_mass sqrt dt w)
      simpa using this
    · have := congrArg List.length (lf_half_mass sqrt dt w)
      simpa using this
    · have := congrArg List.length (lf_rest_mass i w)
      simpa using this
  · intro w
    refine ⟨se_tick_mass sqrt dt w, ?_, se_rest_mass i w, ?_⟩
    · have := congrArg List.length (se_tick_mass sqrt dt w)
      simpa using this
    · have := congrArg List.length (se_rest_mass i w)
      simpa using this

/-- Witness for C1: a concrete two-body world (unit-mass body at the origin,
massless probe at `(1,0,0)` with velocity `(0,1,0)`), `dt = 1`, square root
instantiated as the identity (exact at the evaluated point `|r|² = 1`); the
staged update moves the probe by its old velocity and kicks it by the
acceleration `(−1,0,0)` computed from pre-tick positions. -/
theorem claim_C1_witness :
    1 < (ForwardEuler.World.new
      [ForwardEuler.Body.new ⟨0, 0, 0⟩ ⟨0, 0, 0⟩ 1,
       ForwardEuler.Body.new ⟨1, 0, 0⟩ ⟨0, 1, 0⟩ 0]).bodies.length ∧
    ((ForwardEuler.World.new
      [ForwardEuler.Body.new ⟨0, 0, 0⟩ ⟨0, 0, 0⟩ 1,
       ForwardEuler.Body.new ⟨1, 0, 0⟩ ⟨0, 1, 0⟩ 0]).tick (fun q => q) 1).bodies.getD 1
        ForwardEuler.dbody
      = ⟨⟨1, 1, 0⟩, ⟨-1, 1, 0⟩, 0, ⟨-1, 1, 0⟩⟩ := by
  refine ⟨by decide, ?_⟩
  rw [(claim_C1_forward_euler_tick (fun q => q) 1 _).2.2 1 (by decide)]
  norm_num [ForwardEuler.accelSum, ForwardEuler.Body.acceleration, ForwardEuler.Body.new,
    ForwardEuler.World.new, ForwardEuler.dbody, Vec3.vsum, Vec3.length, Vec3.length_squared,
    Vec3.dot, Vec3.add_def, Vec3.sub_def, Vec3.smul_def, Vec3.smul_left_def, Vec3.ZERO,
    List.range_succ, List.filterMap_cons, Vec3.zero_def, Vec3.mk.injEq]

/-- Witness for C2: two leapfrog bodies; the probe drifts to `(1,1,0)` first,
and the kick then uses the acceleration computed from that *drifted* position
(separation squared `2`), giving velocity `(−1/8, 7/8, 0)` with the square
root abstracted as the identity. -/
theorem claim_C2_witness :
    1 < (Leapfrog.World.new
      [Leapfrog.Body.new ⟨0, 0, 0⟩ ⟨0, 0, 0⟩ 1,
       Leapfrog.Body.new ⟨1, 0, 0⟩ ⟨0, 1, 0⟩ 0]).bodies.length ∧
    ((Leapfrog.World.new
      [Leapfrog.Body.new ⟨0, 0, 0⟩ ⟨0, 0, 0⟩ 1,
       Leapfrog.Body.new ⟨1, 0, 0⟩ ⟨0, 1, 0⟩ 0]).tick (fun q => q) 1).bodies.getD 1
        Leapfrog.dbody
      = ⟨⟨1, 1, 0⟩, ⟨-1/8, 7/8, 0⟩, 0⟩ := by
  refine ⟨by decide, ?_⟩
  rw [(claim_C2_leapfrog_tick (fun q => q) 1 _).2.2 1 (by decide)]
  norm_num [Leapfrog.accelSum, Leapfrog.Body.acceleration, Leapfrog.Body.new,
    Leapfrog.World.new, Leapfrog.dbody, Vec3.vsum, Vec3.length, Vec3.length_squared,
    Vec3.dot, Vec3.add_def, Vec3.sub_def, Vec3.smul_def, Vec3.smul_left_def, Vec3.ZERO,
    List.range_succ, List.filterMap_cons, Vec3.zero_def, Vec3.mk.injEq]

/-- Witness for C4: the half-kick adds `(1/2) · (−1,0,0)` to the probe's
velocity using the positions at the time of the call, and leaves its position
unchanged. -/
theorem claim_C4_witness :
    1 < (Leapfrog.World.new
      [Leapfrog.Body.new ⟨0, 0, 0⟩ ⟨0, 0, 0⟩ 1,
       Leapfrog.Body.new ⟨1, 0, 0⟩ ⟨0, 1, 0⟩ 0]).bodies.length ∧
    ((Leapfrog.World.new
      [Leapfrog.Body.new ⟨0, 0, 0⟩ ⟨0, 0, 0⟩ 1,
       Leapfrog.Body.new ⟨1, 0, 0⟩ ⟨0, 1, 0⟩ 0]).half_tick_velocity (fun q => q) 1).bodies.getD 1
        Leapfrog.dbody
      = ⟨⟨1, 0, 0⟩, ⟨-1/2, 1, 0⟩, 0⟩ := by
  refine ⟨by decide, ?_⟩
  rw [(claim_C4_leapfrog_half_tick (fun q => q) 1 _).2.2 1 (by decide)]
  norm_num [Leapfrog.accelSum, Leapfrog.Body.acceleration, Leapfrog.Body.new,
    Leapfrog.World.new, Leapfrog.dbody, Vec3.vsum, Vec3.length, Vec3.length_squared,
    Vec3.dot, Vec3.add_def, Vec3.sub_def, Vec3.smul_def, Vec3.smul_left_def, Vec3.ZERO,
    List.range_succ, List.filterMap_cons, Vec3.zero_def, Vec3.mk.injEq]

/-- Witness for C6: after `into_rest_frame 1` on a concrete two-body
forward-Euler world, body 1 sits exactly at the origin with zero velocity. -/
theorem claim_C6_witness :
    1 < (ForwardEuler.World.new
      [ForwardEuler.Body.new ⟨3, 0, 0⟩ ⟨0, 2, 0⟩ 1,
       ForwardEuler.Body.new ⟨1, 5, 0⟩ ⟨0, 1, 7⟩ 2]).bodies.length ∧
    (((ForwardEuler.World.new
      [ForwardEuler.Body.new ⟨3, 0, 0⟩ ⟨0, 2, 0⟩ 1,
       ForwardEuler.Body.new ⟨1, 5, 0⟩ ⟨0, 1, 7⟩ 2]).into_rest_frame 1).bodies.getD 1
        ForwardEuler.dbody).position = Vec3.ZERO ∧
    (((ForwardEuler.World.new
      [ForwardEuler.Body.new ⟨3, 0, 0⟩ ⟨0, 2, 0⟩ 1,
       ForwardEuler.Body.new ⟨1, 5, 0⟩ ⟨0, 1, 7⟩ 2]).into_rest_frame 1).bodies.getD 1
        ForwardEuler.dbody).velocity = Vec3.ZERO := by
  have h := claim_C6_rest_frame_reference_zero.1
    (ForwardEuler.World.new
      [ForwardEuler.Body.new ⟨3, 0, 0⟩ ⟨0, 2, 0⟩ 1,
       ForwardEuler.Body.new ⟨1, 5, 0⟩ ⟨0, 1, 7⟩ 2]) 1 (by decide)
  exact ⟨by decide, h.1, h.2⟩

/-- Witness for C7: `into_rest_frame 5` on a two-body forward-Euler world
(index out of range) returns the world unchanged. -/
theorem claim_C7_witness :
    (ForwardEuler.World.new
      [ForwardEuler.Body.new ⟨3, 0, 0⟩ ⟨0, 2, 0⟩ 1,
       ForwardEuler.Body.new ⟨1, 5, 0⟩ ⟨0, 1, 7⟩ 2]).bodies.length ≤ 5 ∧
    (ForwardEuler.World.new
      [ForwardEuler.Body.new ⟨3, 0, 0⟩ ⟨0, 2, 0⟩ 1,
       ForwardEuler.Body.new ⟨1, 5, 0⟩ ⟨0, 1, 7⟩ 2]).into_rest_frame 5
      = ForwardEuler.World.new
      [ForwardEuler.Body.new ⟨3, 0, 0⟩ ⟨0, 2, 0⟩ 1,
       ForwardEuler.Body.new ⟨1, 5, 0⟩ ⟨0, 1, 7⟩ 2] :=
  ⟨by decide, claim_C7_rest_frame_out_of_range_noop.1
    (ForwardEuler.World.new
      [ForwardEuler.Body.new ⟨3, 0, 0⟩ ⟨0, 2, 0⟩ 1,
       ForwardEuler.Body.new ⟨1, 5, 0⟩ ⟨0, 1, 7⟩ 2]) 5 (by decide)⟩

/-- Witness for C8: over the tick sequence `[1, 1/2]` of positive durations,
the elapsed time of a concrete one-body forward-Euler world does not
decrease. -/
theorem claim_C8_witness :
    (∀ d ∈ ([1, 1/2] : List ℚ), 0 < d) ∧
    (ForwardEuler.World.new [ForwardEuler.Body.new ⟨0, 0, 0⟩ ⟨0, 0, 0⟩ 1]).time
      ≤ (([1, 1/2] : List ℚ).foldl (fun u d => u.tick (fun q => q) d)
          (ForwardEuler.World.new [ForwardEuler.Body.new ⟨0, 0, 0⟩ ⟨0, 0, 0⟩ 1])).time := by
  have hpos : ∀ d ∈ ([1, 1/2] : List ℚ), 0 < d := by
    intro d hd
    rcases List.mem_cons.mp hd with h1 | h2
    · rw [h1]; norm_num
    · rw [List.mem_singleton.mp h2]; norm_num
  exact ⟨hpos, claim_C8_time_accounting.1.2.2.2 (fun q => q) [1, 1/2]
    (ForwardEuler.World.new [ForwardEuler.Body.new ⟨0, 0, 0⟩ ⟨0, 0, 0⟩ 1]) hpos⟩

/-- Witness for C9: a one-body forward-Euler world ticks trivially — the body
keeps its velocity and moves by exactly `dt · velocity`. -/
theorem claim_C9_witness :
    (ForwardEuler.World.new
      [ForwardEuler.Body.new ⟨1, 2, 3⟩ ⟨4, 5, 6⟩ 7]).bodies.length ≤ 1 ∧
    (∀ b ∈ (ForwardEuler.World.new
      [ForwardEuler.Body.new ⟨1, 2, 3⟩ ⟨4, 5, 6⟩ 7]).bodies,
        b.next_velocity = b.velocity) ∧
    ((ForwardEuler.World.new
      [ForwardEuler.Body.new ⟨1, 2, 3⟩ ⟨4, 5, 6⟩ 7]).tick (fun q => q) 1).bodies.getD 0
        ForwardEuler.dbody
      = ⟨⟨5, 7, 9⟩, ⟨4, 5, 6⟩, 7, ⟨4, 5, 6⟩⟩ := by
  have hnv : ∀ b ∈ (ForwardEuler.World.new
      [ForwardEuler.Body.new ⟨1, 2, 3⟩ ⟨4, 5, 6⟩ 7]).bodies,
      b.next_velocity = b.velocity := by
    intro b hb
    rw [List.mem_singleton.mp hb]
    rfl
  refine ⟨by decide, hnv, ?_⟩
  rw [(claim_C9_small_world_trivial_tick.1 (fun q => q) 1
    (ForwardEuler.World.new [ForwardEuler.Body.new ⟨1, 2, 3⟩ ⟨4, 5, 6⟩ 7])
    (by decide) hnv).2.2 0 (by decide)]
  norm_num [ForwardEuler.Body.new, ForwardEuler.World.new, ForwardEuler.dbody,
    Vec3.add_def, Vec3.smul_def, Vec3.mk.injEq]
